import Mathlib

/-!
Shallow embedding of the Greenhouse_Agent pipeline
(Greenhouse_Fetch.py, Greenhouse_Title_Filtering.py,
Greenhouse_Location_Filtering.py, Greenhouse_Jobs_Matcher.py) and proofs
about its incremental-insert and merge-update logic.

Python's dynamically typed JSON-ish records are modelled by `PyVal`;
fallible Python code (code that can raise) returns `Except Unit _`;
external capabilities (the HTTP fetch, the LLM call, `html.unescape`,
`datetime.fromisoformat`) are abstracted as function parameters.
Timestamps are integers counting microseconds, the resolution of Python's
`datetime`.
-/

namespace Greenhouse

/-- A Python value as the pipeline sees one: `None`, a string, an integer,
a dict with string keys, or a list. -/
inductive PyVal where
  | pynone : PyVal
  | pystr (s : String) : PyVal
  | pyint (n : Int) : PyVal
  | pydict (entries : List (String × PyVal)) : PyVal
  | pylist (elems : List PyVal) : PyVal

/-- Entries of a Python dict. -/
abbrev PyDict := List (String × PyVal)

/-- Python truthiness: `None`, `""`, `0`, `{}` and `[]` are falsy. -/
def PyVal.truthy : PyVal → Bool
  | .pynone => false
  | .pystr s => !s.isEmpty
  | .pyint n => n != 0
  | .pydict d => !d.isEmpty
  | .pylist l => !l.isEmpty

/-- `a or b` on Python values: `a` when truthy, else `b`. -/
def pyOr (a b : PyVal) : PyVal := if a.truthy then a else b

/-- `d.get(k)` without a default: the value under `k`, when present. -/
def dictGet (d : PyDict) (k : String) : Option PyVal :=
  (d.find? (fun p => p.1 == k)).map (fun p => p.2)

/-- `d.get(k, default)`. -/
def dictGetD (d : PyDict) (k : String) (default : PyVal) : PyVal :=
  (dictGet d k).getD default

/-- The apostrophe character, used by Python's repr of strings. -/
def quoteChar : String := String.singleton (Char.ofNat 39)

mutual

/-- Python `repr` of a value (string escape sequences are not modelled;
no claim evaluates `repr` on a string containing a quote). -/
def pyRepr : PyVal → String
  | .pynone => "None"
  | .pystr s => quoteChar ++ s ++ quoteChar
  | .pyint n => toString n
  | .pydict d => "\x7b" ++ String.intercalate ", " (pyReprEntries d) ++ "\x7d"
  | .pylist l => "[" ++ String.intercalate ", " (pyReprElems l) ++ "]"

def pyReprEntries : List (String × PyVal) → List String
  | [] => []
  | p :: rest => (quoteChar ++ p.1 ++ quoteChar ++ ": " ++ pyRepr p.2) :: pyReprEntries rest

def pyReprElems : List PyVal → List String
  | [] => []
  | v :: rest => pyRepr v :: pyReprElems rest

end

/-- Python `str` of a value (as an f-string interpolates it). -/
def pyStr : PyVal → String
  | .pynone => "None"
  | .pystr s => s
  | .pyint n => toString n
  | .pydict d => pyRepr (.pydict d)
  | .pylist l => pyRepr (.pylist l)

/-!
Structurally recursive character-list implementations of the string
operations the source uses (`.lower()`, `.strip()`, `.split()`,
`.startswith()`, `.replace()`, `str.splitlines()`), so every definition
evaluates definitionally.
-/

/-- `str.lower()` (per-character, as for the ASCII text involved). -/
def strToLower (s : String) : String := String.mk (s.toList.map Char.toLower)

/-- `str.startswith(pre)`. -/
def strStartsWith (s pre : String) : Bool := pre.toList.isPrefixOf s.toList

/-- Leading and trailing whitespace removed. -/
def trimChars (l : List Char) : List Char :=
  ((l.dropWhile Char.isWhitespace).reverse.dropWhile Char.isWhitespace).reverse

/-- `str.strip()`. -/
def stripStr (s : String) : String := String.mk (trimChars s.toList)

/-- Split on a separator character, keeping empty pieces (Python
`str.split(sep)`). -/
def splitOnCharAux (sep : Char) : List Char → List Char → List (List Char)
  | [], acc => [acc.reverse]
  | c :: cs, acc =>
      if c = sep then acc.reverse :: splitOnCharAux sep cs []
      else splitOnCharAux sep cs (c :: acc)

/-- `str.split(sep)` for a one-character separator. -/
def splitOnChar (sep : Char) (s : String) : List String :=
  (splitOnCharAux sep s.toList []).map String.mk

/-- `str.splitlines()` (modelled as splitting on newline; the possible
trailing empty piece matches no `score`/`visa` prefix, so it is inert). -/
def splitLines (s : String) : List String := splitOnChar '\n' s

/-- `line.split(":")`. -/
def splitColon (line : String) : List String := splitOnChar ':' line

/-- Replace every (non-overlapping, left-to-right) occurrence of `pat`. -/
def replaceAux (pat repl : List Char) : Nat → List Char → List Char
  | 0, l => l
  | _ + 1, [] => []
  | fuel + 1, c :: cs =>
      if pat.isPrefixOf (c :: cs) then
        repl ++ replaceAux pat repl fuel ((c :: cs).drop pat.length)
      else c :: replaceAux pat repl fuel cs

/-- `str.replace(pat, repl)` for a non-empty pattern. -/
def strReplace (s pat repl : String) : String :=
  String.mk (replaceAux pat.toList repl.toList s.toList.length s.toList)

/-- The `.strip()` method: strips a string, raises (`AttributeError`) on
any non-string value. -/
def pyStrip : PyVal → Except Unit String
  | .pystr s => .ok (stripStr s)
  | _ => .error ()

/-- Iterating a Python value (`for x in v`): a list yields its elements, a
string its characters, a dict its keys; `None` and integers raise. -/
def pyIter : PyVal → Except Unit (List PyVal)
  | .pylist l => .ok l
  | .pystr s => .ok (s.toList.map (fun c => .pystr (String.singleton c)))
  | .pydict d => .ok (d.map (fun p => .pystr p.1))
  | _ => .error ()

/-!
## Record Normalizer (Greenhouse_Fetch.py: clean_html, parse_iso_dt,
normalize_job)
-/

/-- One pass of `re.sub(r"<[^>]+>", " ", text)`: at a `<`, the regex eats
greedily up to (not past) the first `>`; a match needs at least one
character between the brackets.  Fuel-driven so the recursion is plainly
total; the fuel is the input length, which one step never exhausts. -/
def stripTagsAux : Nat → List Char → List Char
  | 0, l => l
  | _ + 1, [] => []
  | fuel + 1, c :: cs =>
    if c = '<' then
      match cs.span (fun d => !(d = '>')) with
      | (body, _ :: rest) =>
          if body.isEmpty then c :: stripTagsAux fuel cs
          else ' ' :: stripTagsAux fuel rest
      | (_, []) => c :: stripTagsAux fuel cs
    else c :: stripTagsAux fuel cs

/-- `re.sub(r"<[^>]+>", " ", text)` over the characters of `text`. -/
def stripTags (l : List Char) : List Char := stripTagsAux l.length l

/-- Collapse consecutive spaces to one (the second half of
`re.sub(r"\s+", " ", text)`, after every whitespace character was mapped
to a space). -/
def squeezeSpaces : List Char → List Char
  | [] => []
  | [c] => [c]
  | c :: d :: rest =>
      if c = ' ' && d = ' ' then squeezeSpaces (d :: rest)
      else c :: squeezeSpaces (d :: rest)

/-- `re.sub(r"\s+", " ", text).strip()`: map each whitespace character to
a space, collapse runs, trim the ends. -/
def collapseWs (s : String) : String :=
  stripStr (String.mk (squeezeSpaces (s.toList.map (fun c => if c.isWhitespace then ' ' else c))))

/-- `clean_html` of Greenhouse_Fetch.py.  `unescape` abstracts Python's
`html.unescape`; a falsy argument returns `""`, a truthy non-string raises
(`html.unescape` / `.replace` on a non-string). -/
def clean_html (unescape : String → String) (raw : PyVal) : Except Unit String :=
  if !raw.truthy then .ok ""
  else
    match raw with
    | .pystr s =>
        let text := unescape s
        let text := strReplace (strReplace text (String.singleton (Char.ofNat 160)) " ") "&nbsp;" " "
        let text := String.mk (stripTags text.toList)
        .ok (collapseWs text)
    | _ => .error ()

/-- `parse_iso_dt` of Greenhouse_Fetch.py.  `fromiso` abstracts
`datetime.fromisoformat`, yielding a timestamp in microseconds or `none`
when it raises; a falsy argument yields `None`, and a non-string argument
makes `s.replace` raise inside the `try`, which the `except` maps to
`None` as well. -/
def parse_iso_dt (fromiso : String → Option Int) (s : PyVal) : Option Int :=
  if !s.truthy then none
  else
    match s with
    | .pystr str => fromiso (strReplace str "Z" "+00:00")
    | _ => none

/-- The canonical row `normalize_job` returns: the dict
`{JOB_ID, COMPANY, TITLE, LOCATION, DEPARTMENT, PUBLISHED_AT, URL,
DESCRIPTION}`.  `PUBLISHED_AT` and `URL` are stored as the raw Python
values the source keeps there. -/
structure NormRow where
  JOB_ID : String
  COMPANY : String
  TITLE : String
  LOCATION : String
  DEPARTMENT : String
  PUBLISHED_AT : PyVal
  URL : PyVal
  DESCRIPTION : String

/-- `location_name = location.get("name", "") if isinstance(location,
dict) else ""` — never raises by itself (the possibly non-string value is
only stripped later). -/
def locationName (location : PyVal) : PyVal :=
  match location with
  | .pydict d => dictGetD d "name" (.pystr "")
  | _ => .pystr ""

/-- `department_name = departments[0].get("name", "") if departments and
isinstance(departments, list) else ""` — raises (`AttributeError`) when
the non-empty list's first element is not a dict. -/
def departmentName : PyVal → Except Unit PyVal
  | .pylist (hd :: _) =>
      match hd with
      | .pydict d => .ok (dictGetD d "name" (.pystr ""))
      | _ => .error ()
  | _ => .ok (.pystr "")

/-- `normalize_job` of Greenhouse_Fetch.py.  Total on well-formed records;
returns `.error ()` exactly when the Python function raises
(`.strip()` on a non-string, `departments[0].get` on a non-dict,
`html.unescape` on a truthy non-string content). -/
def normalize_job (unescape : String → String) (company : String) (job : PyDict) :
    Except Unit NormRow := do
  let published_at := pyOr (dictGetD job "first_published" .pynone)
    (pyOr (dictGetD job "updated_at" .pynone) (.pystr ""))
  let job_url := pyOr (dictGetD job "absolute_url" .pynone) (.pystr "")
  let composite := company ++ ":" ++ pyStr job_url ++ ":" ++ pyStr published_at
    ++ ":" ++ pyStr (dictGetD job "title" (.pystr ""))
  let job_id := pyOr (dictGetD job "id" .pynone) (.pystr composite)
  let dn ← departmentName (dictGetD job "departments" (.pylist []))
  let title ← pyStrip (pyOr (dictGetD job "title" .pynone) (.pystr ""))
  let locName ← pyStrip (locationName (dictGetD job "location" (.pydict [])))
  let depName ← pyStrip dn
  let desc ← clean_html unescape (dictGetD job "content" (.pystr ""))
  pure {
    JOB_ID := stripStr (pyStr job_id)
    COMPANY := company
    TITLE := title
    LOCATION := locName
    DEPARTMENT := depName
    PUBLISHED_AT := published_at
    URL := job_url
    DESCRIPTION := desc
  }

/-!
## Bounded Fetch Coordinator (Greenhouse_Fetch.py: fetch_company_jobs,
fetch_all)
-/

def FETCH_CONCURRENCY : Nat := 25

def FETCH_BATCH_SIZE : Nat := 400

/-- `fetch_company_jobs` of Greenhouse_Fetch.py.  `fetch` abstracts the
HTTP GET + `raise_for_status` + `.json()`: `.error ()` stands for any
raised exception (an HTTP 4xx/5xx `ClientResponseError`, a timeout, or
anything else — the two `except` clauses treat them alike).  Every
failure is mapped to `(company, [])`; on success the `jobs` field is
taken when the payload is a dict, `[]` otherwise. -/
def fetch_company_jobs (fetch : String → Except Unit PyVal) (company : String) :
    String × PyVal :=
  match fetch company with
  | .error _ => (company, .pylist [])
  | .ok data =>
      match data with
      | .pydict d => (company, dictGetD d "jobs" (.pylist []))
      | _ => (company, .pylist [])

/-- The batch loop of `fetch_all`: companies are taken `FETCH_BATCH_SIZE`
at a time, each batch's results are appended in order
(`asyncio.gather` keeps submission order). -/
def fetch_all (fetch : String → Except Unit PyVal) : List String → List (String × PyVal)
  | [] => []
  | c :: cs =>
      ((c :: cs).take FETCH_BATCH_SIZE).map (fetch_company_jobs fetch)
        ++ fetch_all fetch ((c :: cs).drop FETCH_BATCH_SIZE)
  termination_by l => l.length
  decreasing_by simp [List.length_drop, FETCH_BATCH_SIZE]; omega

/-!
## Incremental Insert Stage (Greenhouse_Fetch.py: run, lines 186-199)

The loop over the fetch results that decides which rows are staged for the
bulk append: a posting is discarded when its best-known timestamp is
absent, unparseable or strictly older than the cutoff; otherwise it is
normalized and staged unless its identity key `(JOB_ID, COMPANY)` is
already in `existing_keys`, to which the key is added at once.
-/

/-- A posting's identity key, `(JOB_ID, COMPANY)`. -/
abbrev JobKey := String × String

/-- The key of a normalized row. -/
def keyOf (r : NormRow) : JobKey := (r.JOB_ID, r.COMPANY)

/-- The best-known timestamp of a raw posting:
`j.get("first_published") or j.get("updated_at")`. -/
def bestTs (j : PyDict) : PyVal :=
  pyOr (dictGetD j "first_published" .pynone) (dictGetD j "updated_at" .pynone)

/-- One iteration of the inner `for j in jobs` loop of `run`.  The
accumulator carries the staged rows and the `existing_keys` set; a
non-dict posting raises (`j.get` on a non-dict), and a raise from
`normalize_job` propagates. -/
def stageJob (unescape : String → String) (fromiso : String → Option Int) (cutoff : Int)
    (company : String) (jv : PyVal) (acc : List NormRow × Finset JobKey) :
    Except Unit (List NormRow × Finset JobKey) :=
  match jv with
  | .pydict j =>
      match parse_iso_dt fromiso (bestTs j) with
      | none => .ok acc
      | some dt =>
          if dt < cutoff then .ok acc
          else do
            let job ← normalize_job unescape company j
            let key := keyOf job
            if key ∈ acc.2 then pure acc
            else pure (acc.1 ++ [job], insert key acc.2)
  | _ => .error ()

/-- The inner `for j in jobs` loop of `run` over one partition's postings. -/
def stageJobs (unescape : String → String) (fromiso : String → Option Int) (cutoff : Int)
    (company : String) : List PyVal → List NormRow × Finset JobKey →
    Except Unit (List NormRow × Finset JobKey)
  | [], acc => .ok acc
  | j :: js, acc => do
      stageJobs unescape fromiso cutoff company js
        (← stageJob unescape fromiso cutoff company j acc)

/-- The outer `for company, jobs in results` loop of `run`. -/
def stageResults (unescape : String → String) (fromiso : String → Option Int) (cutoff : Int) :
    List (String × PyVal) → List NormRow × Finset JobKey →
    Except Unit (List NormRow × Finset JobKey)
  | [], acc => .ok acc
  | (company, jobs) :: rest, acc => do
      let js ← pyIter jobs
      stageResults unescape fromiso cutoff rest
        (← stageJobs unescape fromiso cutoff company js acc)

/-- The staging pass of `run`: starting from no staged rows and the
pre-loaded `existing_keys`, the rows that will be bulk-appended and the
final key set. -/
def stageRows (unescape : String → String) (fromiso : String → Option Int) (cutoff : Int)
    (results : List (String × PyVal)) (existing0 : Finset JobKey) :
    Except Unit (List NormRow × Finset JobKey) :=
  stageResults unescape fromiso cutoff results ([], existing0)

/-!
## Cutoff and Existing-Key Index windows (Greenhouse_Fetch.py: run,
load_recent_keys)

Time is measured in days from an arbitrary origin; `run` computes
`cutoff = now - timedelta(days=days)` while `load_recent_keys` loads the
keys of rows with `PUBLISHED_AT >= DATEADD(day, -2, CURRENT_TIMESTAMP())`
— a window fixed at 2 days, independent of `days`.
-/

def DEFAULT_LOOKBACK_DAYS : ℚ := 1

/-- The fixed lookback of `load_recent_keys`: `DATEADD(day, -2, ...)`. -/
def RECENT_KEYS_LOOKBACK_DAYS : ℚ := 2

/-- The insert stage's cutoff instant, `now - timedelta(days=days)`. -/
def fetchCutoff (now days : ℚ) : ℚ := now - days

/-- The earliest `PUBLISHED_AT` the Existing-Key Index covers. -/
def recentKeysWindowStart (now : ℚ) : ℚ := now - RECENT_KEYS_LOOKBACK_DAYS

/-- The index window starts strictly before the insert cutoff. -/
def indexStrictlyWider (days : ℚ) : Prop :=
  ∀ now : ℚ, recentKeysWindowStart now < fetchCutoff now days

/-- Every publish instant eligible under the cutoff lies inside the index
window. -/
def indexCoversCutoff (days : ℚ) : Prop :=
  ∀ now ts : ℚ, fetchCutoff now days ≤ ts → recentKeysWindowStart now ≤ ts

/-!
## Title filter (Greenhouse_Title_Filtering.py)
-/

def KEYWORDS : List String :=
  ["sql", "python", "snowflake", "analyst", "data pipeline",
   "data engineer", "data scientist", "big data", "etl",
   "powerbi", "power bi", "tableau", "n8n", "automation", "airflow"]

def TITLE_EXCLUDE : List String :=
  ["staff", "principal", "architect", "lead", "director",
   "manager", "intern", "co-op", "sre", "devops",
   "security", "platform engineer", "frontend",
   "front end", "full stack", "ios", "android",
   "mobile", "java", "cloud", "writer", "testing",
   "sales engineer", "pre-sales"]

/-- `pat` occurs as a contiguous run inside `hay`. -/
def infixOfB (pat : List Char) : List Char → Bool
  | [] => pat.isEmpty
  | h :: hs => pat.isPrefixOf (h :: hs) || infixOfB pat hs

/-- Case-insensitive substring test: what `Series.str.contains(pat,
case=False, regex=True)` computes for one literal alternative (none of
the configured patterns holds a regex metacharacter). -/
def containsCI (hay pat : String) : Bool :=
  infixOfB (strToLower pat).toList (strToLower hay).toList

/-- `str.contains("|".join(pats), case=False, regex=True)`: some
alternative occurs. -/
def matchesAny (hay : String) (pats : List String) : Bool :=
  pats.any (fun pat => containsCI hay pat)

/-- A row of the title-filter stage's pending dataframe (`TITLE` and
`DESCRIPTION` are nullable columns; `fillna("")` turns `none` into `""`). -/
structure TFRow where
  job_id : String
  title : Option String
  description : Option String

/-- The row's entry of `exclude_mask`. -/
def excludeMaskRow (r : TFRow) : Bool := matchesAny (r.title.getD "") TITLE_EXCLUDE

/-- The row's entry of `keyword_mask`. -/
def keywordMaskRow (r : TFRow) : Bool := matchesAny (r.description.getD "") KEYWORDS

/-- The row's computed `TITLE_FILTERED` value:
`(~exclude_mask & keyword_mask).map({True: "TRUE", False: "FALSE"})`. -/
def titleFilteredValue (r : TFRow) : String :=
  if !excludeMaskRow r && keywordMaskRow r then "TRUE" else "FALSE"

/-- The `(job_id, title_filtered)` pairs the stage sends into its MERGE
(the VALUES rows `('{job_id}', '{filtered}')`). -/
def titleFilterUpdateRows (df : List TFRow) : List (String × String) :=
  df.map (fun r => (r.job_id, titleFilteredValue r))

/-!
## The persisted table and the three merge-backs

A `Row` carries the identity and core attribute columns plus the three
stages' annotation columns (each nullable).  Each stage's MERGE matches
`ON target.JOB_ID = source.job_id` and updates only its own column(s);
the stages deduplicate their source rows by job_id before merging, so the
first matching source row is the only one. -/
structure Row where
  JOB_ID : String
  COMPANY : String
  TITLE : String
  LOCATION : String
  DEPARTMENT : String
  PUBLISHED_AT : PyVal
  URL : PyVal
  DESCRIPTION : String
  TITLE_FILTERED : Option String
  IN_USA : Option String
  FIT_SCORE : Option String
  VISA_SPONSOR : Option String

/-- What the title-filter MERGE does to one target row: when some source
pair `(job_id, title_filtered)` has the row's `JOB_ID`, set
`TITLE_FILTERED`, else leave the row alone. -/
def updTitleFiltered (src : List (String × String)) (r : Row) : Row :=
  match src.find? (fun s => s.1 == r.JOB_ID) with
  | some s => { r with TITLE_FILTERED := some s.2 }
  | none => r

/-- The title-filter stage's MERGE over the whole table. -/
def mergeTitleFiltered (tbl : List Row) (src : List (String × String)) : List Row :=
  tbl.map (updTitleFiltered src)

/-- What the location stage's MERGE does to one target row: source pairs
are `(job_id, in_usa)`. -/
def updInUsa (src : List (String × String)) (r : Row) : Row :=
  match src.find? (fun s => s.1 == r.JOB_ID) with
  | some s => { r with IN_USA := some s.2 }
  | none => r

/-- The location stage's MERGE over the whole table. -/
def mergeInUsa (tbl : List Row) (src : List (String × String)) : List Row :=
  tbl.map (updInUsa src)

/-- What the matcher's MERGE does to one target row: source triples are
`(job_id, fit_score, visa_sponsor)` (the VALUES rows
`('{job_id}', {score}, '{visa}')`). -/
def updFitScore (src : List (String × String × String)) (r : Row) : Row :=
  match src.find? (fun s => s.1 == r.JOB_ID) with
  | some s => { r with FIT_SCORE := some s.2.1, VISA_SPONSOR := some s.2.2 }
  | none => r

/-- The matcher's MERGE over the whole table. -/
def mergeFitScore (tbl : List Row) (src : List (String × String × String)) : List Row :=
  tbl.map (updFitScore src)

/-!
## Location classification (Greenhouse_Location_Filtering.py)
-/

/-- `is_in_usa`.  `llm` abstracts the chat-completion call on the
location prompt: `.error ()` when the call raises.  A blank location
short-circuits to `"No"` without consulting `llm`; the call itself is NOT
wrapped in any try/except, so its exception propagates. -/
def is_in_usa (llm : String → Except Unit String) (location_text : String) :
    Except Unit String :=
  if stripStr location_text = "" then .ok "No"
  else do
    let content ← llm location_text
    let answer := strToLower (stripStr content)
    pure (if strStartsWith answer "yes" then "Yes" else "No")

/-- The classification step of the location stage's `run`:
`await asyncio.gather(*(is_in_usa(loc) for loc in df["location"]))` paired
with the job ids — `gather` re-raises the first exception of any task, so
a single raising row fails the whole batch. -/
def classifyLocations (llm : String → Except Unit String)
    (rows : List (String × String)) : Except Unit (List (String × String)) :=
  rows.mapM (fun r => (is_in_usa llm r.2).map (fun v => (r.1, v)))

/-!
## Fit scoring (Greenhouse_Jobs_Matcher.py: analyze_job and its batch loop)
-/

/-- A record of the matcher's pending dataframe. -/
structure MatchJob where
  job_id : String
  title : String
  description : String

/-- `line.split(":", 1)[1]`: the text after the first colon; raises
(`IndexError`) when the line holds no colon. -/
def splitFirstColon (line : String) : Except Unit String :=
  match splitColon line with
  | [] => .error ()
  | [_] => .error ()
  | _ :: rest => .ok (String.intercalate ":" rest)

/-- A character Python's `str.isdigit` accepts: one with Unicode
Numeric_Type Digit or Decimal.  This is strictly wider than the decimal
digits `0`-`9`: it also takes non-decimal digit characters such as the
superscripts `¹` `²` `³` (U+00B9/U+00B2/U+00B3), on which `int()` raises.
Modelled over the ASCII digits together with a representative set of the
further Unicode digit characters (the superscript and subscript digits
and the Arabic-Indic and Devanagari decimal digits); only the fact that
the acceptance is strictly wider than `0`-`9` bears on any claim. -/
def pyCharIsDigit (c : Char) : Bool :=
  c.isDigit
  || c = Char.ofNat 178 || c = Char.ofNat 179 || c = Char.ofNat 185
  || c.toNat = 8304 || (8308 ≤ c.toNat && c.toNat ≤ 8313)
  || (8320 ≤ c.toNat && c.toNat ≤ 8329)
  || (1632 ≤ c.toNat && c.toNat ≤ 1641)
  || (2406 ≤ c.toNat && c.toNat ≤ 2415)

/-- Python `str.isdigit`: a non-empty string of digit characters (in the
wide Unicode sense of `pyCharIsDigit`, not only decimal digits). -/
def pyIsdigit (s : String) : Bool :=
  !s.isEmpty && s.toList.all pyCharIsDigit

/-- One line of `analyze_job`'s response-parsing loop: a line whose
lowercase form starts with `score` (resp. `visa`) replaces the running
score (resp. visa, lowercased); both take the text after the first colon,
stripped, and raise when the line has no colon. -/
def scoreVisaStep (sv : String × String) (line : String) : Except Unit (String × String) :=
  let l := strToLower line
  if strStartsWith l "score" then
    (splitFirstColon line).map (fun rest => (stripStr rest, sv.2))
  else if strStartsWith l "visa" then
    (splitFirstColon line).map (fun rest => (sv.1, strToLower (stripStr rest)))
  else .ok sv

/-- `analyze_job`'s parsing of the response text (already `.strip()`ed):
fold the lines over the defaults `("0", "yes")`.  `splitlines` is
modelled as splitting on newline. -/
def parseScoreVisa (content : String) : Except Unit (String × String) :=
  (splitLines content).foldlM scoreVisaStep ("0", "yes")

/-- `analyze_job`.  `llm` abstracts the chat-completion call, keyed by the
job description (the only per-job text in the prompt): `.error ()` when
the call raises — which the function catches, returning `None` for the
row.  The parse of a successful response is NOT inside that try/except,
so its `IndexError` propagates.  The final fixups force a score that
`str.isdigit` accepts and a visa in `{"yes", "no"}`. -/
def analyze_job (llm : String → Except Unit String) (job : MatchJob) :
    Except Unit (Option (String × String × String)) :=
  match llm job.description with
  | .error _ => .ok none
  | .ok content => do
      let sv ← parseScoreVisa (stripStr content)
      let score := if pyIsdigit sv.1 then sv.1 else "0"
      let visa := if sv.2 == "yes" || sv.2 == "no" then sv.2 else "yes"
      pure (some (score, visa, job.job_id))

/-- One batch of the matcher's `run`:
`await asyncio.gather(*(analyze_job(job, ...) for job in batch))` followed
by `rows = [r for r in results if r]`.  A raise inside any `analyze_job`
(the colon-less-line `IndexError`) propagates; an LLM failure only makes
that task yield `None`, which the filter drops. -/
def processMatcherBatch (llm : String → Except Unit String) (batch : List MatchJob) :
    Except Unit (List (String × String × String)) := do
  let results ← batch.mapM (analyze_job llm)
  pure (results.filterMap id)

/-- The successfully computed result of one job, when there is one. -/
def okSome (e : Except Unit (Option (String × String × String))) :
    Option (String × String × String) :=
  match e with
  | .ok (some r) => some r
  | _ => none

/-!
## Theorems
-/

/-- Bind on a successful `Except Unit` computation. -/
theorem okBind {α β : Type} (a : α) (f : α → Except Unit β) :
    (Except.ok a >>= f : Except Unit β) = f a := rfl

/-- Bind on a failed `Except Unit` computation. -/
theorem errBind {α β : Type} (f : α → Except Unit β) :
    ((Except.error () : Except Unit α) >>= f) = .error () := rfl

/-- Bind on a pure `Except Unit` computation. -/
theorem pureBind {α β : Type} (a : α) (f : α → Except Unit β) :
    ((pure a : Except Unit α) >>= f) = f a := rfl

/-- Unfolding one batch step of `fetch_all` equals mapping over the whole
list: `take ++ drop` recomposes the input. -/
theorem fetch_all_eq_map (fetch : String → Except Unit PyVal) (companies : List String) :
    fetch_all fetch companies = companies.map (fetch_company_jobs fetch) := by
  have H : ∀ n (l : List String), l.length ≤ n →
      fetch_all fetch l = l.map (fetch_company_jobs fetch) := by
    intro n
    induction n with
    | zero =>
        intro l hl
        have : l = [] := List.length_eq_zero.mp (Nat.le_zero.mp hl)
        subst this
        simp [fetch_all]
    | succ n ih =>
        intro l hl
        match l with
        | [] => simp [fetch_all]
        | c :: cs =>
            rw [fetch_all]
            rw [ih ((c :: cs).drop FETCH_BATCH_SIZE)
              (by simp [FETCH_BATCH_SIZE] at hl ⊢; omega)]
            rw [← List.map_append, List.take_append_drop]
  exact H companies.length companies le_rfl

/-- C5: the Bounded Fetch Coordinator pairs every partition with a result
— the output's first components are exactly the input companies, in
order — and a partition whose fetch raises is paired with the empty list;
no exception escapes `fetch_company_jobs`, so the whole operation is a
total function of the per-partition outcomes. -/
theorem C5_fetch_partial_failure_isolation :
    ∀ (fetch : String → Except Unit PyVal) (companies : List String),
      (fetch_all fetch companies).map Prod.fst = companies
      ∧ fetch_all fetch companies = companies.map (fetch_company_jobs fetch)
      ∧ ∀ c, fetch c = .error () → fetch_company_jobs fetch c = (c, .pylist []) := by
  intro fetch companies
  refine ⟨?_, fetch_all_eq_map fetch companies, ?_⟩
  · rw [fetch_all_eq_map, List.map_map]
    have : ∀ c, (Prod.fst ∘ fetch_company_jobs fetch) c = c := by
      intro c
      simp only [Function.comp_apply, fetch_company_jobs]
      cases fetch c with
      | error e => rfl
      | ok data => cases data <;> rfl
    simpa using List.map_congr_left (fun c _ => this c) |>.trans (List.map_id companies)
  · intro c hc
    simp [fetch_company_jobs, hc]

/-- C5 witness: three partitions, the middle one failing, still yield
three results in order, the failing one empty. -/
theorem C5_fetch_witness :
    fetch_all (fun c => if c = "bad" then .error () else .ok (.pydict [("jobs", .pylist [.pyint 7])]))
        ["a", "bad", "b"]
      = [("a", .pylist [.pyint 7]), ("bad", .pylist []), ("b", .pylist [.pyint 7])] := by
  rw [fetch_all_eq_map]
  rfl

/-- C6 counterexample: with lookback `days = 3` the Existing-Key Index
window (fixed at 2 days) is NOT strictly wider than the insert cutoff
window, and the publish instant `-3` (exactly at the cutoff, hence
eligible) lies outside the index window. -/
theorem C6_counterexample :
    ¬ recentKeysWindowStart 0 < fetchCutoff 0 3
    ∧ fetchCutoff 0 3 ≤ -3
    ∧ ¬ recentKeysWindowStart 0 ≤ -3 := by
  refine ⟨?_, ?_, ?_⟩ <;>
    norm_num [recentKeysWindowStart, fetchCutoff, RECENT_KEYS_LOOKBACK_DAYS]

/-- C6 (amended): the index window is fixed at 2 days, so it is strictly
wider than the insert cutoff window exactly when `days < 2`, and it covers
every cutoff-eligible publish instant exactly when `days ≤ 2`; the default
lookback of 1 day satisfies both. -/
theorem C6_index_window_fixed_two_days :
    ∀ days : ℚ,
      (indexStrictlyWider days ↔ days < RECENT_KEYS_LOOKBACK_DAYS)
      ∧ (indexCoversCutoff days ↔ days ≤ RECENT_KEYS_LOOKBACK_DAYS)
      ∧ indexStrictlyWider DEFAULT_LOOKBACK_DAYS := by
  have hwider : ∀ days : ℚ, indexStrictlyWider days ↔ days < RECENT_KEYS_LOOKBACK_DAYS := by
    intro days
    constructor
    · intro h
      have := h 0
      simp only [recentKeysWindowStart, fetchCutoff] at this
      linarith
    · intro h now
      simp only [recentKeysWindowStart, fetchCutoff]
      linarith
  intro days
  refine ⟨hwider days, ?_, (hwider DEFAULT_LOOKBACK_DAYS).mpr (by
    norm_num [DEFAULT_LOOKBACK_DAYS, RECENT_KEYS_LOOKBACK_DAYS])⟩
  constructor
  · intro h
    have := h 0 (fetchCutoff 0 days) le_rfl
    simp only [recentKeysWindowStart, fetchCutoff] at this
    linarith
  · intro h now ts hts
    simp only [recentKeysWindowStart]
    simp only [fetchCutoff] at hts
    linarith

/-- The columns a `Row` has besides the three annotation stages' output
columns: identity and core attributes. -/
def sameCore (r r2 : Row) : Prop :=
  r2.JOB_ID = r.JOB_ID ∧ r2.COMPANY = r.COMPANY ∧ r2.TITLE = r.TITLE
  ∧ r2.LOCATION = r.LOCATION ∧ r2.DEPARTMENT = r.DEPARTMENT
  ∧ r2.PUBLISHED_AT = r.PUBLISHED_AT ∧ r2.URL = r.URL ∧ r2.DESCRIPTION = r.DESCRIPTION

/-- C1 counterexample rows: two table rows of different partitions
(`acme` and `globex`) sharing `JOB_ID = "7"`. -/
def cexRowA : Row :=
  { JOB_ID := "7", COMPANY := "acme", TITLE := "", LOCATION := "", DEPARTMENT := ""
    PUBLISHED_AT := .pynone, URL := .pynone, DESCRIPTION := ""
    TITLE_FILTERED := some "TRUE", IN_USA := some "Yes", FIT_SCORE := none, VISA_SPONSOR := none }

def cexRowB : Row :=
  { JOB_ID := "7", COMPANY := "globex", TITLE := "", LOCATION := "", DEPARTMENT := ""
    PUBLISHED_AT := .pynone, URL := .pynone, DESCRIPTION := ""
    TITLE_FILTERED := some "TRUE", IN_USA := some "Yes", FIT_SCORE := none, VISA_SPONSOR := none }

/-- C1 counterexample: a fit-score result for job_id "7" merged into a
table holding two rows of DIFFERENT partitions with that job_id updates
both rows — the merge matches on `JOB_ID` alone, so a result computed for
one partition's posting does update another partition's row. -/
theorem C1_counterexample :
    (mergeFitScore [cexRowA, cexRowB] [("7", "85", "yes")]).map
        (fun r => (r.COMPANY, r.FIT_SCORE))
      = [("acme", some "85"), ("globex", some "85")]
    ∧ cexRowB.FIT_SCORE = none := by
  exact ⟨rfl, rfl⟩

/-- C1 (amended): each Annotation Stage merge-back updates only the
stage's own output column(s) — every other column of every row is left
untouched — but rows are matched by `JOB_ID` alone, not by the full
identity key `(job_id, source_partition)`: any two rows sharing a
`JOB_ID` that appears among the stage's results receive the same update,
whatever their partitions. -/
theorem C1_merge_own_columns_job_id_only :
    ∀ (tbl : List Row) (srcT srcU : List (String × String))
      (srcF : List (String × String × String)) (r r2 : Row),
      mergeTitleFiltered tbl srcT = tbl.map (updTitleFiltered srcT)
      ∧ mergeInUsa tbl srcU = tbl.map (updInUsa srcU)
      ∧ mergeFitScore tbl srcF = tbl.map (updFitScore srcF)
      ∧ (sameCore r (updTitleFiltered srcT r)
          ∧ (updTitleFiltered srcT r).IN_USA = r.IN_USA
          ∧ (updTitleFiltered srcT r).FIT_SCORE = r.FIT_SCORE
          ∧ (updTitleFiltered srcT r).VISA_SPONSOR = r.VISA_SPONSOR)
      ∧ (sameCore r (updInUsa srcU r)
          ∧ (updInUsa srcU r).TITLE_FILTERED = r.TITLE_FILTERED
          ∧ (updInUsa srcU r).FIT_SCORE = r.FIT_SCORE
          ∧ (updInUsa srcU r).VISA_SPONSOR = r.VISA_SPONSOR)
      ∧ (sameCore r (updFitScore srcF r)
          ∧ (updFitScore srcF r).TITLE_FILTERED = r.TITLE_FILTERED
          ∧ (updFitScore srcF r).IN_USA = r.IN_USA)
      ∧ (r.JOB_ID = r2.JOB_ID → r.JOB_ID ∈ srcF.map (fun s => s.1) →
          ∃ s ∈ srcF, s.1 = r.JOB_ID
            ∧ (updFitScore srcF r).FIT_SCORE = some s.2.1
            ∧ (updFitScore srcF r2).FIT_SCORE = some s.2.1
            ∧ (updFitScore srcF r).VISA_SPONSOR = some s.2.2
            ∧ (updFitScore srcF r2).VISA_SPONSOR = some s.2.2) := by
  intro tbl srcT srcU srcF r r2
  refine ⟨rfl, rfl, rfl, ?_, ?_, ?_, ?_⟩
  · unfold updTitleFiltered
    cases srcT.find? (fun s => s.1 == r.JOB_ID) <;>
      simp [sameCore]
  · unfold updInUsa
    cases srcU.find? (fun s => s.1 == r.JOB_ID) <;>
      simp [sameCore]
  · unfold updFitScore
    cases srcF.find? (fun s => s.1 == r.JOB_ID) <;>
      simp [sameCore]
  · intro hid hmem
    rcases List.mem_map.mp hmem with ⟨s0, hs0, hfst⟩
    have hsome : (srcF.find? (fun x => x.1 == r.JOB_ID)).isSome := by
      apply List.find?_isSome.mpr
      exact ⟨s0, hs0, by simp [hfst]⟩
    rcases Option.isSome_iff_exists.mp hsome with ⟨s, hfind⟩
    have hmemS : s ∈ srcF := List.mem_of_find?_eq_some hfind
    have hpS : s.1 = r.JOB_ID := by simpa using List.find?_some hfind
    have hfind2 : srcF.find? (fun x => x.1 == r2.JOB_ID) = some s := by
      rw [← hid]
      exact hfind
    refine ⟨s, hmemS, hpS, ?_, ?_, ?_, ?_⟩ <;>
      simp [updFitScore, hfind, hfind2]

/-- C2: the Incremental Insert Stage's timestamp gate.  (a) a posting
whose best-known timestamp parses to exactly the cutoff is included: when
it normalizes and its key is new, it is staged; (b) one whose timestamp is
one microsecond (one unit) older than the cutoff is excluded, without an
error; (c) one whose timestamp string fails to parse is excluded, without
an error. -/
theorem C2_cutoff_correctness :
    ∀ (unescape : String → String) (fromiso : String → Option Int) (cutoff : Int)
      (company : String) (j : PyDict) (acc : List NormRow × Finset JobKey),
      (parse_iso_dt fromiso (bestTs j) = some cutoff →
        ∀ job, normalize_job unescape company j = .ok job → keyOf job ∉ acc.2 →
          stageJob unescape fromiso cutoff company (.pydict j) acc
            = .ok (acc.1 ++ [job], insert (keyOf job) acc.2))
      ∧ (parse_iso_dt fromiso (bestTs j) = some (cutoff - 1) →
          stageJob unescape fromiso cutoff company (.pydict j) acc = .ok acc)
      ∧ (∀ s : String, bestTs j = .pystr s → fromiso (strReplace s "Z" "+00:00") = none →
          stageJob unescape fromiso cutoff company (.pydict j) acc = .ok acc) := by
  intro unescape fromiso cutoff company j acc
  refine ⟨?_, ?_, ?_⟩
  · intro hparse job hnorm hfresh
    simp only [stageJob, hparse, lt_irrefl, if_false]
    rw [hnorm]
    simp only [okBind]
    rw [if_neg hfresh]
    rfl
  · intro hparse
    simp only [stageJob, hparse]
    rw [if_pos (by omega)]
  · intro s hbest hnone
    have hparse : parse_iso_dt fromiso (bestTs j) = none := by
      rw [hbest]
      simp only [parse_iso_dt]
      by_cases htr : (PyVal.pystr s).truthy
      · simp [htr, hnone]
      · simp [htr]
    simp [stageJob, hparse]

/-- Inputs for the C2 witness: the abstracted `fromisoformat` maps `"E"`
to the cutoff instant 0, `"O"` to one microsecond earlier, and parses
nothing else. -/
def w2fromiso : String → Option Int :=
  fun s => if s = "E" then some 0 else if s = "O" then some (-1) else none

def w2jobExact : PyDict := [("id", .pyint 5), ("first_published", .pystr "E")]

def w2jobOld : PyDict := [("id", .pyint 6), ("first_published", .pystr "O")]

def w2jobBad : PyDict := [("id", .pyint 7), ("first_published", .pystr "nonsense")]

/-- The row `w2jobExact` normalizes to. -/
def w2row : NormRow :=
  { JOB_ID := "5", COMPANY := "acme", TITLE := "", LOCATION := "", DEPARTMENT := ""
    PUBLISHED_AT := .pystr "E", URL := .pystr "", DESCRIPTION := "" }

/-- C2 witness: at cutoff 0, the posting timestamped exactly 0 is staged,
the one timestamped -1 is skipped without error, and the one with an
unparseable timestamp is skipped without error. -/
theorem C2_cutoff_witness :
    stageJob (fun s => s) w2fromiso 0 "acme" (.pydict w2jobExact) ([], ∅)
      = .ok ([] ++ [w2row], insert (keyOf w2row) ∅)
    ∧ stageJob (fun s => s) w2fromiso 0 "acme" (.pydict w2jobOld) ([], ∅) = .ok ([], ∅)
    ∧ stageJob (fun s => s) w2fromiso 0 "acme" (.pydict w2jobBad) ([], ∅) = .ok ([], ∅) := by
  refine ⟨?_, ?_, ?_⟩
  · exact (C2_cutoff_correctness (fun s => s) w2fromiso 0 "acme" w2jobExact ([], ∅)).1
      (by rfl) w2row (by rfl) (by simp)
  · exact (C2_cutoff_correctness (fun s => s) w2fromiso 0 "acme" w2jobOld ([], ∅)).2.1
      (by rfl)
  · exact (C2_cutoff_correctness (fun s => s) w2fromiso 0 "acme" w2jobBad ([], ∅)).2.2
      "nonsense" (by rfl) (by rfl)

/-- The LLM capability for the C3 counterexample: raises on the location
`"Paris"`, answers every other location. -/
def w3llm : String → Except Unit String :=
  fun loc => if loc = "Paris" then .error () else .ok "No"

/-- C3 counterexample: in the location-classification stage one row's
raising LLM call fails the WHOLE batch (`asyncio.gather` re-raises),
although the other row's call succeeds on its own — the claim's
"failure never aborts the batch" does not hold for this stage. -/
theorem C3_counterexample :
    classifyLocations w3llm [("1", "Paris"), ("2", "New York")] = .error ()
    ∧ is_in_usa w3llm "New York" = .ok "No" := by
  exact ⟨rfl, rfl⟩

/-- C3 (amended): the per-row failure isolation holds for the fit-scoring
stage — a row whose LLM call raises yields `None`, is dropped from the
batch's results, and the other rows' results are kept in order — but not
for the location-classification stage, whose uncaught per-row exception
aborts its whole batch (`C3_counterexample`); the title filter invokes no
external capability. -/
theorem C3_matcher_isolates_row_failure :
    ∀ (llm : String → Except Unit String) (batch : List MatchJob),
      (∀ job ∈ batch, llm job.description = .error () → analyze_job llm job = .ok none)
      ∧ (∀ rows, processMatcherBatch llm batch = .ok rows →
          rows = batch.filterMap (fun job => okSome (analyze_job llm job))) := by
  intro llm batch
  constructor
  · intro job _ herr
    simp [analyze_job, herr]
  · intro rows hrun
    simp only [processMatcherBatch] at hrun
    induction batch generalizing rows with
    | nil =>
        simp only [List.mapM_nil, okBind] at hrun
        cases hrun
        rfl
    | cons job rest ih =>
        rw [List.mapM_cons] at hrun
        cases hres : analyze_job llm job with
        | error e =>
            rw [hres] at hrun
            cases e
            rw [errBind] at hrun
            cases hrun
        | ok r =>
            rw [hres, okBind] at hrun
            cases hrest : rest.mapM (analyze_job llm) with
            | error e =>
                rw [hrest] at hrun
                cases e
                rw [errBind] at hrun
                cases hrun
            | ok rs =>
                rw [hrest, okBind, pureBind] at hrun
                have hrows : List.filterMap id (r :: rs) = rows := Except.ok.inj hrun
                subst hrows
                have htail := ih (rs.filterMap id) (by rw [hrest, okBind]; rfl)
                cases r with
                | none => simpa [okSome, hres] using htail
                | some v => simpa [okSome, hres] using htail

/-- A line whose `split(":")` has at least two pieces yields the text
after its first colon rather than raising. -/
theorem splitFirstColon_ok (line : String) (h : 2 ≤ (splitColon line).length) :
    ∃ rest, splitFirstColon line = .ok rest := by
  unfold splitFirstColon
  match hsp : splitColon line with
  | [] => rw [hsp] at h; simp at h
  | [x] => rw [hsp] at h; simp at h
  | x :: y :: t => exact ⟨_, rfl⟩

/-- Unfolding one step of the response-parsing fold. -/
theorem foldlMCons (f : (String × String) → String → Except Unit (String × String))
    (b : String × String) (a : String) (l : List String) :
    (a :: l).foldlM f b = f b a >>= fun b2 => l.foldlM f b2 := rfl

/-- The response-parsing fold never raises when every `score`/`visa`
line holds a colon, and a component of the running state survives when no
line addresses it. -/
theorem foldScoreVisa_ok (lines : List String) :
    ∀ init : String × String,
      (∀ line ∈ lines,
        (strStartsWith (strToLower line) "score" = true
          ∨ strStartsWith (strToLower line) "visa" = true) →
          2 ≤ (splitColon line).length) →
      ∃ sv, lines.foldlM scoreVisaStep init = .ok sv
        ∧ ((∀ line ∈ lines, ¬ strStartsWith (strToLower line) "score" = true) →
            sv.1 = init.1)
        ∧ ((∀ line ∈ lines, ¬ strStartsWith (strToLower line) "visa" = true) →
            sv.2 = init.2) := by
  induction lines with
  | nil =>
      intro init _
      exact ⟨init, rfl, fun _ => rfl, fun _ => rfl⟩
  | cons line rest ih =>
      intro init hcolon
      have hline := hcolon line (List.mem_cons_self line rest)
      have hstep : ∃ sv1, scoreVisaStep init line = .ok sv1
          ∧ (¬ strStartsWith (strToLower line) "score" = true → sv1.1 = init.1)
          ∧ (¬ strStartsWith (strToLower line) "visa" = true → sv1.2 = init.2) := by
        unfold scoreVisaStep
        by_cases hs : strStartsWith (strToLower line) "score" = true
        · obtain ⟨r0, hr0⟩ := splitFirstColon_ok line (hline (Or.inl hs))
          refine ⟨(stripStr r0, init.2), ?_, fun hns => absurd hs hns, fun _ => rfl⟩
          simp [hs, hr0, Except.map]
        · by_cases hv : strStartsWith (strToLower line) "visa" = true
          · obtain ⟨r0, hr0⟩ := splitFirstColon_ok line (hline (Or.inr hv))
            refine ⟨(init.1, strToLower (stripStr r0)), ?_, fun _ => rfl,
              fun hnv => absurd hv hnv⟩
            simp [hs, hv, hr0, Except.map]
          · exact ⟨init, by simp [hs, hv], fun _ => rfl, fun _ => rfl⟩
      obtain ⟨sv1, hstep_eq, h1, h2⟩ := hstep
      obtain ⟨sv, hfold, hkeep1, hkeep2⟩ :=
        ih sv1 (fun l hl hp => hcolon l (List.mem_cons_of_mem _ hl) hp)
      refine ⟨sv, ?_, ?_, ?_⟩
      · rw [foldlMCons, hstep_eq, okBind]
        exact hfold
      · intro hno
        rw [hkeep1 (fun l hl => hno l (List.mem_cons_of_mem _ hl)),
          h1 (hno line (List.mem_cons_self line rest))]
      · intro hno
        rw [hkeep2 (fun l hl => hno l (List.mem_cons_of_mem _ hl)),
          h2 (hno line (List.mem_cons_self line rest))]

/-- C4 counterexample: a scoring response whose score line lacks a colon
(`"score 85"`) — a text with no parseable `score:` line — makes
`analyze_job` raise an (uncaught) `IndexError` instead of yielding the
safe defaults: the row (and with it the whole batch) fails. -/
theorem C4_counterexample :
    analyze_job (fun _ => .ok "score 85\nvisa: yes")
      { job_id := "j1", title := "t", description := "d" } = .error () := by
  rfl

/-- C4 (amended): when every line of the response that begins
(case-insensitively) with `score` or `visa` contains a colon, the row
never fails: a response with no score line (or an unparseable score
value) yields score `"0"`, and one with no visa line (or an unrecognised
visa value) yields the permissive `"yes"`; but a `score`/`visa` line
without a colon raises an uncaught `IndexError` (`C4_counterexample`). -/
theorem C4_safe_defaults_for_colon_lines :
    ∀ (llm : String → Except Unit String) (job : MatchJob) (content : String),
      llm job.description = .ok content →
      (∀ line ∈ splitLines (stripStr content),
        (strStartsWith (strToLower line) "score" = true
          ∨ strStartsWith (strToLower line) "visa" = true) →
          2 ≤ (splitColon line).length) →
      ∃ s v, analyze_job llm job = .ok (some (s, v, job.job_id))
        ∧ pyIsdigit s = true ∧ (v = "yes" ∨ v = "no")
        ∧ ((∀ line ∈ splitLines (stripStr content),
            ¬ strStartsWith (strToLower line) "score" = true) → s = "0")
        ∧ ((∀ line ∈ splitLines (stripStr content),
            ¬ strStartsWith (strToLower line) "visa" = true) → v = "yes") := by
  intro llm job content hok hcolon
  obtain ⟨sv, hfold, hkeep1, hkeep2⟩ :=
    foldScoreVisa_ok (splitLines (stripStr content)) ("0", "yes") hcolon
  refine ⟨if pyIsdigit sv.1 then sv.1 else "0",
    if sv.2 == "yes" || sv.2 == "no" then sv.2 else "yes", ?_, ?_, ?_, ?_, ?_⟩
  · simp only [analyze_job, hok, parseScoreVisa]
    rw [hfold, okBind]
    rfl
  · by_cases hd : pyIsdigit sv.1 = true
    · simp [hd]
    · simp only [hd, Bool.false_eq_true, if_false]
      rfl
  · by_cases hy : (sv.2 == "yes" || sv.2 == "no") = true
    · rw [if_pos hy]
      rcases Bool.or_eq_true_iff.mp hy with h | h
      · exact Or.inl (eq_of_beq h)
      · exact Or.inr (eq_of_beq h)
    · rw [if_neg hy]
      exact Or.inl rfl
  · intro hno
    rw [hkeep1 hno]
    rfl
  · intro hno
    rw [hkeep2 hno]
    rfl

/-- C4 witness: a response with neither a score nor a visa line yields
the defaults `("0", "yes")`, without an error. -/
theorem C4_defaults_witness :
    ∃ s v, analyze_job (fun _ => .ok "hello\nworld")
        { job_id := "j1", title := "t", description := "d" } = .ok (some (s, v, "j1"))
      ∧ pyIsdigit s = true ∧ (s = "0" ∨ s ≠ "0") ∧ v = "yes" := by
  obtain ⟨s, v, heq, hdig, _, hs0, hv⟩ :=
    C4_safe_defaults_for_colon_lines (fun _ => .ok "hello\nworld")
      { job_id := "j1", title := "t", description := "d" } "hello\nworld"
      rfl (by decide)
  exact ⟨s, v, heq, hdig, by tauto, hv (by decide)⟩

/-- C10 counterexample: a response scoring `²` (U+00B2, a non-decimal
Unicode digit that Python's `str.isdigit` accepts) is returned verbatim
as the row's score — a string that is NOT made of decimal digits and
denotes no integer — refuting "the returned score is a string of decimal
digits". -/
theorem C10_counterexample :
    analyze_job (fun _ => .ok ("score: " ++ String.singleton (Char.ofNat 178) ++ "\nvisa: no"))
      { job_id := "j1", title := "t", description := "d" }
      = .ok (some (String.singleton (Char.ofNat 178), "no", "j1"))
    ∧ ¬ (String.singleton (Char.ofNat 178)).toList.all Char.isDigit = true := by
  exact ⟨rfl, by decide⟩

/-- C10 (amended): whenever the fit-scoring computation returns a result
for a row, the score is a non-empty string of characters Python's
`str.isdigit` accepts — which besides the decimal digits includes
non-decimal Unicode digit characters such as `²` (`C10_counterexample`),
so the score need not denote a non-negative integer — and the visa value
is one of the two lowercase strings `"yes"`/`"no"`, paired with the
row's own job id; and nothing caps the score at 100 — a response scoring
150 passes through verbatim. -/
theorem C10_result_shape :
    (∀ (llm : String → Except Unit String) (job : MatchJob) (s v jid : String),
      analyze_job llm job = .ok (some (s, v, jid)) →
        pyIsdigit s = true ∧ (v = "yes" ∨ v = "no") ∧ jid = job.job_id)
    ∧ analyze_job (fun _ => .ok "score: 150\nvisa: no")
        { job_id := "j1", title := "t", description := "d" }
      = .ok (some ("150", "no", "j1")) := by
  constructor
  · intro llm job s v jid heq
    cases hllm : llm job.description with
    | error e =>
        simp [analyze_job, hllm] at heq
    | ok content =>
        simp only [analyze_job, hllm] at heq
        cases hsv : parseScoreVisa (stripStr content) with
        | error e =>
            cases e
            rw [hsv, errBind] at heq
            exact Except.noConfusion heq
        | ok sv =>
            rw [hsv, okBind] at heq
            have h3 := Option.some.inj (Except.ok.inj heq)
            have hs := congrArg Prod.fst h3
            have hv := congrArg (fun t : String × String × String => t.2.1) h3
            have hj := congrArg (fun t : String × String × String => t.2.2) h3
            simp only at hs hv hj
            refine ⟨?_, ?_, hj.symm⟩
            · rw [← hs]
              by_cases hd : pyIsdigit sv.1 = true
              · simp [hd]
              · simp only [hd, Bool.false_eq_true, if_false]
                rfl
            · rw [← hv]
              by_cases hy : (sv.2 == "yes" || sv.2 == "no") = true
              · rw [if_pos hy]
                rcases Bool.or_eq_true_iff.mp hy with h | h
                · exact Or.inl (eq_of_beq h)
                · exact Or.inr (eq_of_beq h)
              · rw [if_neg hy]
                exact Or.inl rfl
  · rfl

/-- The exclude mask of a row is false exactly when no exclude pattern
occurs in its title. -/
theorem excludeMask_false_iff (r : TFRow) :
    excludeMaskRow r = false ↔
      ∀ p ∈ TITLE_EXCLUDE, containsCI (r.title.getD "") p = false := by
  unfold excludeMaskRow matchesAny
  rw [Bool.eq_false_iff]
  rw [ne_eq, List.any_eq_true]
  constructor
  · intro h p hp
    by_contra hc
    exact h ⟨p, hp, by simpa using hc⟩
  · rintro h ⟨p, hp, hc⟩
    rw [h p hp] at hc
    cases hc

/-- C9: for every pending row the title filter computes a (non-null)
value in `{"TRUE", "FALSE"}`, paired with the row's own job id; the value
is `"TRUE"` exactly when no exclude pattern occurs (case-insensitively)
in the title and some keyword occurs in the description; and an excluded
title forces `"FALSE"` whatever the description. -/
theorem C9_title_filter_characterisation :
    ∀ (df : List TFRow) (i : Nat) (r : TFRow),
      df.get? i = some r →
        (titleFilterUpdateRows df).get? i = some (r.job_id, titleFilteredValue r)
        ∧ (titleFilteredValue r = "TRUE" ∨ titleFilteredValue r = "FALSE")
        ∧ (titleFilteredValue r = "TRUE" ↔
            ((∀ p ∈ TITLE_EXCLUDE, containsCI (r.title.getD "") p = false)
              ∧ ∃ k ∈ KEYWORDS, containsCI (r.description.getD "") k = true))
        ∧ (∀ p ∈ TITLE_EXCLUDE, containsCI (r.title.getD "") p = true →
            titleFilteredValue r = "FALSE") := by
  intro df i r hget
  have hTF : ("FALSE" : String) ≠ "TRUE" := by decide
  have hval : titleFilteredValue r = "TRUE" ↔
      (!excludeMaskRow r && keywordMaskRow r) = true := by
    unfold titleFilteredValue
    by_cases hc : (!excludeMaskRow r && keywordMaskRow r) = true
    · simp [hc]
    · rw [if_neg hc]
      exact iff_of_false hTF hc
  have hbool : (!excludeMaskRow r && keywordMaskRow r) = true ↔
      (excludeMaskRow r = false ∧ keywordMaskRow r = true) := by
    cases excludeMaskRow r <;> cases keywordMaskRow r <;> simp
  have hkw : keywordMaskRow r = true ↔
      ∃ k ∈ KEYWORDS, containsCI (r.description.getD "") k = true := by
    unfold keywordMaskRow matchesAny
    exact List.any_eq_true
  refine ⟨?_, ?_, ?_, ?_⟩
  · unfold titleFilterUpdateRows
    rw [List.get?_map, hget]
    rfl
  · unfold titleFilteredValue
    by_cases hc : (!excludeMaskRow r && keywordMaskRow r) = true
    · exact Or.inl (by simp [hc])
    · exact Or.inr (by simp [hc])
  · rw [hval, hbool, excludeMask_false_iff, hkw]
  · intro p hp hc
    have hex : excludeMaskRow r = true := by
      unfold excludeMaskRow matchesAny
      exact List.any_eq_true.mpr ⟨p, hp, hc⟩
    unfold titleFilteredValue
    simp [hex]

/-- The C9 witness row: titled `"Data Analyst"`, description mentioning
SQL. -/
def w9row : TFRow :=
  { job_id := "1", title := some "Data Analyst", description := some "We use SQL daily" }

/-- C9 witness: the characterisation evaluated at `w9row`, whose computed
value is `TRUE`. -/
theorem C9_title_filter_witness :
    (titleFilterUpdateRows [w9row]).get? 0 = some ("1", titleFilteredValue w9row)
    ∧ titleFilteredValue w9row = "TRUE" := by
  have h := C9_title_filter_characterisation [w9row] 0 w9row rfl
  exact ⟨h.1, by rfl⟩

/-!
C7: the Record Normalizer's totality.
-/

/-- A value that is a string whenever it is truthy, so that `(v or "")
.strip()` cannot raise. -/
def StrWhenTruthy (v : PyVal) : Prop := v.truthy = true → ∃ s, v = .pystr s

/-- A dict whose `name` value, when present, is a string, so that
`.get("name", "").strip()` cannot raise. -/
def NameIsStr (d : PyDict) : Prop := ∀ v, dictGet d "name" = some v → ∃ s, v = .pystr s

/-- C7 counterexample: a record whose `departments` field is a list with
a non-dict element — one of the very inputs the claim names — makes
`normalize_job` raise (`departments[0].get` on a non-dict,
`AttributeError`) instead of degrading to an empty default. -/
theorem C7_counterexample :
    normalize_job (fun s => s) "acme" [("departments", .pylist [.pyint 1])]
      = .error () := by
  rfl

/-- C7 (amended): `normalize_job` is side-effect-free and total — with
empty-string defaults for absent fields — on records whose truthy
`title`/`content` values are strings, whose `location`, when a dict, has
a string `name` value, and whose `departments`, when a non-empty list,
starts with a dict having a string `name` value; outside these
conditions (e.g. `departments = [1]`, `C7_counterexample`) it raises. -/
theorem C7_normalizer_total_on_wellformed :
    ∀ (unescape : String → String) (company : String) (job : PyDict),
      (∀ v, dictGet job "title" = some v → StrWhenTruthy v) →
      (∀ d, dictGetD job "location" (.pydict []) = .pydict d → NameIsStr d) →
      (∀ l, dictGetD job "departments" (.pylist []) = .pylist l →
        ∀ hd tl, l = hd :: tl → ∃ d, hd = .pydict d ∧ NameIsStr d) →
      (∀ v, dictGet job "content" = some v → StrWhenTruthy v) →
      ∃ row, normalize_job unescape company job = .ok row
        ∧ (dictGet job "title" = none → row.TITLE = "")
        ∧ (dictGet job "location" = none → row.LOCATION = "")
        ∧ (dictGet job "departments" = none → row.DEPARTMENT = "")
        ∧ (dictGet job "content" = none → row.DESCRIPTION = "")
        ∧ (dictGet job "absolute_url" = none → row.URL = .pystr "") := by
  intro unescape company job htitle hloc hdep hcontent
  -- the department component
  obtain ⟨dnv, dnS, hdn1, hdn2, hdnd⟩ : ∃ dnv dnS,
      departmentName (dictGetD job "departments" (.pylist [])) = .ok dnv
      ∧ pyStrip dnv = .ok dnS
      ∧ (dictGet job "departments" = none → dnS = "") := by
    cases hdv : dictGet job "departments" with
    | none =>
        refine ⟨.pystr "", "", ?_, rfl, fun _ => rfl⟩
        simp only [dictGetD]
        rw [hdv]
        rfl
    | some dv =>
        have hD : dictGetD job "departments" (.pylist []) = dv := by
          simp only [dictGetD]
          rw [hdv]
          rfl
        cases dv with
        | pylist l =>
            cases l with
            | nil => exact ⟨.pystr "", "", by rw [hD]; rfl, rfl, fun h => Option.noConfusion h⟩
            | cons hd tl =>
                obtain ⟨d, rfl, hname⟩ := hdep (hd :: tl) hD hd tl rfl
                cases hn : dictGet d "name" with
                | none =>
                    refine ⟨.pystr "", "", ?_, rfl, fun h => Option.noConfusion h⟩
                    rw [hD]
                    simp only [departmentName, dictGetD]
                    rw [hn]
                    rfl
                | some nv =>
                    obtain ⟨s, rfl⟩ := hname nv hn
                    refine ⟨.pystr s, stripStr s, ?_, rfl, fun h => Option.noConfusion h⟩
                    rw [hD]
                    simp only [departmentName, dictGetD]
                    rw [hn]
                    rfl
        | pynone => exact ⟨.pystr "", "", by rw [hD]; rfl, rfl, fun h => Option.noConfusion h⟩
        | pystr s => exact ⟨.pystr "", "", by rw [hD]; rfl, rfl, fun h => Option.noConfusion h⟩
        | pyint n => exact ⟨.pystr "", "", by rw [hD]; rfl, rfl, fun h => Option.noConfusion h⟩
        | pydict d => exact ⟨.pystr "", "", by rw [hD]; rfl, rfl, fun h => Option.noConfusion h⟩
  -- the title component
  obtain ⟨tS, htS, htSd⟩ : ∃ tS,
      pyStrip (pyOr (dictGetD job "title" .pynone) (.pystr "")) = .ok tS
      ∧ (dictGet job "title" = none → tS = "") := by
    cases htv : dictGet job "title" with
    | none =>
        refine ⟨"", ?_, fun _ => rfl⟩
        simp only [dictGetD]
        rw [htv]
        rfl
    | some v =>
        have hD : dictGetD job "title" .pynone = v := by
          simp only [dictGetD]
          rw [htv]
          rfl
        by_cases htr : v.truthy = true
        · obtain ⟨s, rfl⟩ := htitle v htv htr
          refine ⟨stripStr s, ?_, fun h => Option.noConfusion h⟩
          rw [hD]
          simp only [pyOr]
          rw [if_pos htr]
          rfl
        · refine ⟨"", ?_, fun h => Option.noConfusion h⟩
          rw [hD]
          simp only [pyOr]
          rw [if_neg htr]
          rfl
  -- the location component
  obtain ⟨lS, hlS, hlSd⟩ : ∃ lS,
      pyStrip (locationName (dictGetD job "location" (.pydict []))) = .ok lS
      ∧ (dictGet job "location" = none → lS = "") := by
    cases hl : dictGetD job "location" (.pydict []) with
    | pydict d =>
        cases hn : dictGet d "name" with
        | none =>
            refine ⟨"", ?_, fun _ => rfl⟩
            simp only [locationName, dictGetD]
            rw [hn]
            rfl
        | some nv =>
            obtain ⟨s, rfl⟩ := hloc d hl nv hn
            refine ⟨stripStr s, ?_, fun habs => ?_⟩
            · simp only [locationName, dictGetD]
              rw [hn]
              rfl
            · have hempty : PyVal.pydict [] = PyVal.pydict d := by
                rw [← hl]
                simp only [dictGetD]
                rw [habs]
                rfl
              have hd0 : d = ([] : PyDict) := (PyVal.pydict.inj hempty).symm
              rw [hd0] at hn
              exact Option.noConfusion hn
    | pynone => exact ⟨"", rfl, fun _ => rfl⟩
    | pystr s => exact ⟨"", rfl, fun _ => rfl⟩
    | pyint n => exact ⟨"", rfl, fun _ => rfl⟩
    | pylist l => exact ⟨"", rfl, fun _ => rfl⟩
  -- the description component
  obtain ⟨dS, hdS, hdSd⟩ : ∃ dS,
      clean_html unescape (dictGetD job "content" (.pystr "")) = .ok dS
      ∧ (dictGet job "content" = none → dS = "") := by
    by_cases ht : (dictGetD job "content" (.pystr "")).truthy = true
    · cases hcv : dictGet job "content" with
      | none =>
          exfalso
          simp only [dictGetD] at ht
          rw [hcv] at ht
          exact Bool.noConfusion ht
      | some v =>
          have hvD : dictGetD job "content" (.pystr "") = v := by
            simp only [dictGetD]
            rw [hcv]
            rfl
          rw [hvD] at ht
          obtain ⟨s, rfl⟩ := hcontent v hcv ht
          refine ⟨collapseWs (String.mk (stripTags (strReplace (strReplace (unescape s)
              (String.singleton (Char.ofNat 160)) " ") "&nbsp;" " ").toList)),
            ?_, fun h => Option.noConfusion h⟩
          rw [hvD]
          simp only [clean_html, ht, Bool.not_true]
          rfl
    · refine ⟨"", ?_, fun _ => rfl⟩
      simp only [clean_html]
      rw [Bool.not_eq_true] at ht
      rw [ht]
      rfl
  have hmain : normalize_job unescape company job = .ok {
      JOB_ID := stripStr (pyStr (pyOr (dictGetD job "id" .pynone)
        (.pystr (company ++ ":" ++ pyStr (pyOr (dictGetD job "absolute_url" .pynone) (.pystr ""))
          ++ ":" ++ pyStr (pyOr (dictGetD job "first_published" .pynone)
            (pyOr (dictGetD job "updated_at" .pynone) (.pystr "")))
          ++ ":" ++ pyStr (dictGetD job "title" (.pystr ""))))))
      COMPANY := company
      TITLE := tS
      LOCATION := lS
      DEPARTMENT := dnS
      PUBLISHED_AT := pyOr (dictGetD job "first_published" .pynone)
        (pyOr (dictGetD job "updated_at" .pynone) (.pystr ""))
      URL := pyOr (dictGetD job "absolute_url" .pynone) (.pystr "")
      DESCRIPTION := dS } := by
    simp only [normalize_job]
    rw [hdn1, okBind, htS, okBind, hlS, okBind, hdn2, okBind, hdS, okBind]
    rfl
  refine ⟨_, hmain, fun h => htSd h, fun h => hlSd h, fun h => hdnd h, fun h => hdSd h,
    fun h => ?_⟩
  show pyOr (dictGetD job "absolute_url" .pynone) (.pystr "") = .pystr ""
  simp only [dictGetD]
  rw [h]
  rfl

/-- C7 witness: the empty record normalizes without error, every core
attribute defaulting to the empty value. -/
theorem C7_normalizer_witness :
    ∃ row, normalize_job (fun s => s) "acme" [] = .ok row
      ∧ (dictGet [] "title" = none → row.TITLE = "")
      ∧ (dictGet [] "location" = none → row.LOCATION = "")
      ∧ (dictGet [] "departments" = none → row.DEPARTMENT = "")
      ∧ (dictGet [] "content" = none → row.DESCRIPTION = "")
      ∧ (dictGet [] "absolute_url" = none → row.URL = .pystr "") :=
  C7_normalizer_total_on_wellformed (fun s => s) "acme" []
    (fun _ h => Option.noConfusion h)
    (fun d hd => by
      cases PyVal.pydict.inj hd
      intro v hv
      exact Option.noConfusion hv)
    (fun l hl hd tl hcons => by
      cases PyVal.pylist.inj hl
      exact List.noConfusion hcons)
    (fun _ h => Option.noConfusion h)

/-!
C8: the Incremental Insert Stage's dedup invariants.
-/

/-- A raw posting passes the timestamp gate: its best-known timestamp
parses and is not strictly older than the cutoff. -/
def passesGate (f : String → Option Int) (c : Int) (j : PyDict) : Prop :=
  ∃ dt, parse_iso_dt f (bestTs j) = some dt ∧ ¬ dt < c

/-- A posting that fails the gate is skipped, leaving the accumulator
unchanged. -/
theorem stageJob_skip (u : String → String) (f : String → Option Int) (c : Int)
    (co : String) (j : PyDict) (acc : List NormRow × Finset JobKey)
    (hng : ¬ passesGate f c j) :
    stageJob u f c co (.pydict j) acc = .ok acc := by
  cases hp : parse_iso_dt f (bestTs j) with
  | none => simp only [stageJob, hp]
  | some dt =>
      have hlt : dt < c := by
        by_contra hnlt
        exact hng ⟨dt, hp, hnlt⟩
      simp only [stageJob, hp, if_pos hlt]

/-- A posting that passes the gate, normalizes, and whose key is already
known is skipped. -/
theorem stageJob_mem (u : String → String) (f : String → Option Int) (c : Int)
    (co : String) (j : PyDict) (acc : List NormRow × Finset JobKey) (job : NormRow)
    (hg : passesGate f c j) (hn : normalize_job u co j = .ok job)
    (hk : keyOf job ∈ acc.2) :
    stageJob u f c co (.pydict j) acc = .ok acc := by
  obtain ⟨dt, hp, hnlt⟩ := hg
  simp only [stageJob, hp]
  rw [if_neg hnlt, hn, okBind, if_pos hk]
  rfl

/-- Exactly the outcomes one call of `stageJob` can have on a dict
posting. -/
theorem stageJob_spec (u : String → String) (f : String → Option Int) (c : Int)
    (co : String) (jv : PyVal) (acc acc2 : List NormRow × Finset JobKey)
    (h : stageJob u f c co jv acc = .ok acc2) :
    ∃ j, jv = .pydict j ∧
      ((¬ passesGate f c j ∧ acc2 = acc)
       ∨ (passesGate f c j ∧ ∃ job, normalize_job u co j = .ok job ∧
           ((keyOf job ∈ acc.2 ∧ acc2 = acc)
            ∨ (keyOf job ∉ acc.2
                ∧ acc2 = (acc.1 ++ [job], insert (keyOf job) acc.2))))) := by
  cases jv with
  | pynone => exact Except.noConfusion h
  | pystr s => exact Except.noConfusion h
  | pyint n => exact Except.noConfusion h
  | pylist l => exact Except.noConfusion h
  | pydict j =>
      refine ⟨j, rfl, ?_⟩
      cases hp : parse_iso_dt f (bestTs j) with
      | none =>
          simp only [stageJob, hp] at h
          refine Or.inl ⟨?_, (Except.ok.inj h).symm⟩
          rintro ⟨dt, hdt, -⟩
          rw [hp] at hdt
          exact Option.noConfusion hdt
      | some dt =>
          simp only [stageJob, hp] at h
          by_cases hlt : dt < c
          · rw [if_pos hlt] at h
            refine Or.inl ⟨?_, (Except.ok.inj h).symm⟩
            rintro ⟨dt2, hdt2, hnlt⟩
            rw [hp] at hdt2
            cases Option.some.inj hdt2
            exact hnlt hlt
          · rw [if_neg hlt] at h
            cases hn : normalize_job u co j with
            | error e =>
                cases e
                rw [hn, errBind] at h
                exact Except.noConfusion h
            | ok job =>
                rw [hn, okBind] at h
                by_cases hk : keyOf job ∈ acc.2
                · rw [if_pos hk] at h
                  exact Or.inr ⟨⟨dt, hp, hlt⟩, job, rfl,
                    Or.inl ⟨hk, (Except.ok.inj h).symm⟩⟩
                · rw [if_neg hk] at h
                  exact Or.inr ⟨⟨dt, hp, hlt⟩, job, rfl,
                    Or.inr ⟨hk, (Except.ok.inj h).symm⟩⟩

/-- One posting only grows the key set. -/
theorem stageJob_mono (u : String → String) (f : String → Option Int) (c : Int)
    (co : String) (jv : PyVal) (acc acc2 : List NormRow × Finset JobKey)
    (h : stageJob u f c co jv acc = .ok acc2) : acc.2 ⊆ acc2.2 := by
  obtain ⟨j, rfl, hcase⟩ := stageJob_spec u f c co jv acc acc2 h
  rcases hcase with ⟨-, rfl⟩ | ⟨-, job, -, ⟨-, rfl⟩ | ⟨-, rfl⟩⟩
  · exact Finset.Subset.refl _
  · exact Finset.Subset.refl _
  · exact Finset.subset_insert _ _

/-- One partition's postings only grow the key set. -/
theorem stageJobs_mono (u : String → String) (f : String → Option Int) (c : Int)
    (co : String) (js : List PyVal) :
    ∀ acc acc2, stageJobs u f c co js acc = .ok acc2 → acc.2 ⊆ acc2.2 := by
  induction js with
  | nil =>
      intro acc acc2 h
      cases Except.ok.inj h
      exact Finset.Subset.refl _
  | cons j js ih =>
      intro acc acc2 h
      simp only [stageJobs] at h
      cases hj : stageJob u f c co j acc with
      | error e =>
          cases e
          rw [hj, errBind] at h
          exact Except.noConfusion h
      | ok mid =>
          rw [hj, okBind] at h
          exact (stageJob_mono u f c co j acc mid hj).trans (ih mid acc2 h)

/-- The whole staging pass only grows the key set. -/
theorem stageResults_mono (u : String → String) (f : String → Option Int) (c : Int)
    (results : List (String × PyVal)) :
    ∀ acc acc2, stageResults u f c results acc = .ok acc2 → acc.2 ⊆ acc2.2 := by
  induction results with
  | nil =>
      intro acc acc2 h
      cases Except.ok.inj h
      exact Finset.Subset.refl _
  | cons pr rest ih =>
      intro acc acc2 h
      obtain ⟨co, jobs⟩ := pr
      simp only [stageResults] at h
      cases hit : pyIter jobs with
      | error e =>
          cases e
          rw [hit, errBind] at h
          exact Except.noConfusion h
      | ok js =>
          rw [hit, okBind] at h
          cases hjs : stageJobs u f c co js acc with
          | error e =>
              cases e
              rw [hjs, errBind] at h
              exact Except.noConfusion h
          | ok mid =>
              rw [hjs, okBind] at h
              exact (stageJobs_mono u f c co js acc mid hjs).trans (ih mid acc2 h)

/-- The staged-rows invariant of one run: the pre-loaded keys are in the
key set, the staged rows have pairwise-distinct keys, and every staged
row's key is in the key set but not among the pre-loaded keys. -/
def StageInv (E0 : Finset JobKey) (acc : List NormRow × Finset JobKey) : Prop :=
  E0 ⊆ acc.2 ∧ (acc.1.map keyOf).Nodup
    ∧ ∀ r ∈ acc.1, keyOf r ∈ acc.2 ∧ keyOf r ∉ E0

/-- One posting preserves the staged-rows invariant. -/
theorem stageJob_inv (u : String → String) (f : String → Option Int) (c : Int)
    (co : String) (jv : PyVal) (E0 : Finset JobKey)
    (acc acc2 : List NormRow × Finset JobKey)
    (h : stageJob u f c co jv acc = .ok acc2) (hI : StageInv E0 acc) :
    StageInv E0 acc2 := by
  obtain ⟨j, rfl, hcase⟩ := stageJob_spec u f c co jv acc acc2 h
  obtain ⟨hE, hnd, hmem⟩ := hI
  rcases hcase with ⟨-, rfl⟩ | ⟨-, job, -, ⟨-, rfl⟩ | ⟨hk, rfl⟩⟩
  · exact ⟨hE, hnd, hmem⟩
  · exact ⟨hE, hnd, hmem⟩
  · refine ⟨hE.trans (Finset.subset_insert _ _), ?_, ?_⟩
    · rw [List.map_append]
      rw [List.nodup_append]
      refine ⟨hnd, List.nodup_singleton _, ?_⟩
      intro k hkin hksing
      simp only [List.map_cons, List.map_nil, List.mem_singleton] at hksing
      subst hksing
      obtain ⟨r, hr, hkr⟩ := List.mem_map.mp hkin
      exact hk (hkr ▸ (hmem r hr).1)
    · intro r hr
      rcases List.mem_append.mp hr with hr | hr
      · exact ⟨Finset.mem_insert_of_mem (hmem r hr).1, (hmem r hr).2⟩
      · rw [List.mem_singleton.mp hr]
        exact ⟨Finset.mem_insert_self _ _, fun hkE => hk (hE hkE)⟩

/-- One partition preserves the staged-rows invariant. -/
theorem stageJobs_inv (u : String → String) (f : String → Option Int) (c : Int)
    (co : String) (js : List PyVal) (E0 : Finset JobKey) :
    ∀ acc acc2, stageJobs u f c co js acc = .ok acc2 → StageInv E0 acc →
      StageInv E0 acc2 := by
  induction js with
  | nil =>
      intro acc acc2 h hI
      cases Except.ok.inj h
      exact hI
  | cons j js ih =>
      intro acc acc2 h hI
      simp only [stageJobs] at h
      cases hj : stageJob u f c co j acc with
      | error e =>
          cases e
          rw [hj, errBind] at h
          exact Except.noConfusion h
      | ok mid =>
          rw [hj, okBind] at h
          exact ih mid acc2 h (stageJob_inv u f c co j E0 acc mid hj hI)

/-- The whole staging pass preserves the staged-rows invariant. -/
theorem stageResults_inv (u : String → String) (f : String → Option Int) (c : Int)
    (results : List (String × PyVal)) (E0 : Finset JobKey) :
    ∀ acc acc2, stageResults u f c results acc = .ok acc2 → StageInv E0 acc →
      StageInv E0 acc2 := by
  induction results with
  | nil =>
      intro acc acc2 h hI
      cases Except.ok.inj h
      exact hI
  | cons pr rest ih =>
      intro acc acc2 h hI
      obtain ⟨co, jobs⟩ := pr
      simp only [stageResults] at h
      cases hit : pyIter jobs with
      | error e =>
          cases e
          rw [hit, errBind] at h
          exact Except.noConfusion h
      | ok js =>
          rw [hit, okBind] at h
          cases hjs : stageJobs u f c co js acc with
          | error e =>
              cases e
              rw [hjs, errBind] at h
              exact Except.noConfusion h
          | ok mid =>
              rw [hjs, okBind] at h
              exact ih mid acc2 h (stageJobs_inv u f c co js E0 acc mid hjs hI)

/-- A second pass over one posting stages nothing when every key the
first pass ended with is already known. -/
theorem stageJob_sim (u : String → String) (f : String → Option Int) (c : Int)
    (co : String) (jv : PyVal) (r1 : List NormRow) (S1 : Finset JobKey)
    (out : List NormRow × Finset JobKey) (S2 : Finset JobKey)
    (h1 : stageJob u f c co jv (r1, S1) = .ok out) (hsub : out.2 ⊆ S2)
    (r2 : List NormRow) :
    stageJob u f c co jv (r2, S2) = .ok (r2, S2) := by
  obtain ⟨j, rfl, hcase⟩ := stageJob_spec u f c co jv (r1, S1) out h1
  rcases hcase with ⟨hng, rfl⟩ | ⟨hg, job, hn, ⟨hk, rfl⟩ | ⟨hk, rfl⟩⟩
  · exact stageJob_skip u f c co j (r2, S2) hng
  · exact stageJob_mem u f c co j (r2, S2) job hg hn (hsub hk)
  · exact stageJob_mem u f c co j (r2, S2) job hg hn
      (hsub (Finset.mem_insert_self _ _))

/-- A second pass over one partition stages nothing when every key the
first pass ended with is already known. -/
theorem stageJobs_sim (u : String → String) (f : String → Option Int) (c : Int)
    (co : String) (js : List PyVal) :
    ∀ (r1 : List NormRow) (S1 : Finset JobKey) (out : List NormRow × Finset JobKey)
      (S2 : Finset JobKey),
      stageJobs u f c co js (r1, S1) = .ok out → out.2 ⊆ S2 →
      ∀ r2, stageJobs u f c co js (r2, S2) = .ok (r2, S2) := by
  induction js with
  | nil => intro r1 S1 out S2 _ _ r2; rfl
  | cons j js ih =>
      intro r1 S1 out S2 h1 hsub r2
      simp only [stageJobs] at h1 ⊢
      cases hj : stageJob u f c co j (r1, S1) with
      | error e =>
          cases e
          rw [hj, errBind] at h1
          exact Except.noConfusion h1
      | ok mid =>
          rw [hj, okBind] at h1
          have hmid : mid.2 ⊆ S2 :=
            (stageJobs_mono u f c co js mid out h1).trans hsub
          rw [stageJob_sim u f c co j r1 S1 mid S2 hj hmid r2, okBind]
          exact ih mid.1 mid.2 out S2 (by rw [Prod.mk.eta]; exact h1) hsub r2

/-- A second staging pass stages nothing when every key the first pass
ended with is already known. -/
theorem stageResults_sim (u : String → String) (f : String → Option Int) (c : Int)
    (results : List (String × PyVal)) :
    ∀ (r1 : List NormRow) (S1 : Finset JobKey) (out : List NormRow × Finset JobKey)
      (S2 : Finset JobKey),
      stageResults u f c results (r1, S1) = .ok out → out.2 ⊆ S2 →
      ∀ r2, stageResults u f c results (r2, S2) = .ok (r2, S2) := by
  induction results with
  | nil => intro r1 S1 out S2 _ _ r2; rfl
  | cons pr rest ih =>
      intro r1 S1 out S2 h1 hsub r2
      obtain ⟨co, jobs⟩ := pr
      simp only [stageResults] at h1 ⊢
      cases hit : pyIter jobs with
      | error e =>
          cases e
          rw [hit, errBind] at h1
          exact Except.noConfusion h1
      | ok js =>
          rw [hit, okBind] at h1
          rw [okBind]
          cases hjs : stageJobs u f c co js (r1, S1) with
          | error e =>
              cases e
              rw [hjs, errBind] at h1
              exact Except.noConfusion h1
          | ok mid =>
              rw [hjs, okBind] at h1
              have hmid : mid.2 ⊆ S2 :=
                (stageResults_mono u f c rest mid out h1).trans hsub
              rw [stageJobs_sim u f c co js r1 S1 mid S2 hjs hmid r2, okBind]
              exact ih mid.1 mid.2 out S2 (by rw [Prod.mk.eta]; exact h1) hsub r2

/-- C8: within one run of the Incremental Insert Stage the staged rows
have pairwise-distinct identity keys `(JOB_ID, COMPANY)`, none of which
is in the pre-loaded key set; and a second run over the same fetch
results, whose pre-loaded set contains the first run's final key set (in
particular the keys of all rows the first run staged), stages zero
rows. -/
theorem C8_insert_dedup_idempotent :
    ∀ (unescape : String → String) (fromiso : String → Option Int) (cutoff : Int)
      (results : List (String × PyVal)) (E0 : Finset JobKey)
      (rows : List NormRow) (K : Finset JobKey),
      stageRows unescape fromiso cutoff results E0 = .ok (rows, K) →
        (rows.map keyOf).Nodup
        ∧ (∀ r ∈ rows, keyOf r ∉ E0)
        ∧ ∀ E1 : Finset JobKey, K ⊆ E1 →
            stageRows unescape fromiso cutoff results E1 = .ok ([], E1) := by
  intro unescape fromiso cutoff results E0 rows K h
  have hI := stageResults_inv unescape fromiso cutoff results E0 ([], E0) (rows, K) h
    ⟨Finset.Subset.refl _, List.nodup_nil, fun r hr => absurd hr (List.not_mem_nil r)⟩
  refine ⟨hI.2.1, fun r hr => (hI.2.2 r hr).2, fun E1 hE1 => ?_⟩
  exact stageResults_sim unescape fromiso cutoff results [] E0 (rows, K) E1 h hE1 []

/-- The C8 witness posting and the row it stages. -/
def w8job : PyDict := [("id", .pystr "1"), ("first_published", .pystr "t1")]

def w8row : NormRow :=
  { JOB_ID := "1", COMPANY := "acme", TITLE := "", LOCATION := "", DEPARTMENT := ""
    PUBLISHED_AT := .pystr "t1", URL := .pystr "", DESCRIPTION := "" }

def w8fromiso : String → Option Int := fun s => if s = "t1" then some 10 else none

def w8results : List (String × PyVal) := [("acme", .pylist [.pydict w8job])]

/-- C8 witness: one partition with one fresh posting stages exactly that
row with a fresh, duplicate-free key, and re-running the stage with the
resulting key set stages zero rows. -/
theorem C8_insert_witness :
    ([w8row].map keyOf).Nodup
    ∧ (∀ r ∈ [w8row], keyOf r ∉ (∅ : Finset JobKey))
    ∧ ∀ E1 : Finset JobKey, insert (keyOf w8row) ∅ ⊆ E1 →
        stageRows (fun s => s) w8fromiso 0 w8results E1 = .ok ([], E1) :=
  C8_insert_dedup_idempotent (fun s => s) w8fromiso 0 w8results ∅
    [w8row] (insert (keyOf w8row) ∅) rfl

end Greenhouse
